import Mathlib

set_option linter.unusedVariables false

/-!
Verification of the rtt-fuzzer driver (src/rtt-module.js).

The development shallowly embeds the deterministic mode of the driver
(RND = false): every claim under study concerns the deterministic backend,
in which `pick` delegates to `data.pickValue` and `rnd` delegates to
`data.consumeIntegralInRange`.  Machine values that the driver inspects are
modelled by a small universe of JavaScript values; the rules engine is an
arbitrary record of pure functions whose action application may fail
(mirroring a thrown JS exception caught by the try/catch at lines 131-140).
Exceptions that the driver does NOT catch (for example the TypeError raised
by reading `.length` of a null descriptor on line 95) are modelled by the
`jsError` outcome.
-/

namespace RTT

/-- Primitive (non-container) JavaScript values occurring as action
descriptors, pool elements and object field values.  `nan` is kept distinct
from finite numbers although `typeof NaN` is still `"number"`. -/
inductive JSPrim where
  | undefined
  | null
  | bool (b : Bool)
  | num (n : Int)
  | nan
  | str (s : String)
deriving DecidableEq, Inhabited

/-- JavaScript values as far as the driver inspects them: a primitive, an
array, or a plain object.  The driver treats array elements and object
field values opaquely (it only picks them and passes them on), so those are
modelled as primitives. -/
inductive JSVal where
  | prim (p : JSPrim)
  | arr (xs : List JSPrim)
  | obj (fs : List (String × JSPrim))
deriving DecidableEq, Inhabited

/-- The property access `value.length` as performed by the disabled-action
filter (line 95).  Reading `.length` of `undefined` or `null` throws a
TypeError; numbers and booleans are boxed and yield `undefined`. -/
def jsLength : JSVal → Except String JSVal
  | .prim .undefined => .error "TypeError: cannot read properties of undefined"
  | .prim .null => .error "TypeError: cannot read properties of null"
  | .prim (.str s) => .ok (.prim (.num s.length))
  | .prim _ => .ok (.prim .undefined)
  | .arr xs => .ok (.prim (.num xs.length))
  | .obj fs =>
    .ok (match fs.find? (fun kv => kv.1 == "length") with
         | some kv => .prim kv.2
         | none => .prim .undefined)

/-- The disabled-action test of line 95:
`value === false || value === 0 || value.length === 0`, including the
TypeError raised when `value` is `null` or `undefined` (short-circuit
evaluation: the length is only read when the first two tests fail). -/
def deletableE (v : JSVal) : Except String Bool :=
  if v = .prim (.bool false) then .ok true
  else if v = .prim (.num 0) then .ok true
  else do
    let l ← jsLength v
    .ok (decide (l = .prim (.num 0)))

/-- The loop of lines 94-98: `Object.entries` snapshots the entries in
order, each value is tested and the deletable ones are removed.  The first
descriptor whose `.length` read throws aborts the whole run with an
uncaught TypeError. -/
def filterActions : List (String × JSVal) → Except String (List (String × JSVal))
  | [] => .ok []
  | (k, v) :: rest => do
    let del ← deletableE v
    let tail ← filterActions rest
    .ok (if del then tail else (k, v) :: tail)

/-- `'undo' in actions` (line 84). -/
def containsKey (fs : List (String × JSVal)) (k : String) : Bool :=
  fs.any (fun kv => kv.1 == k)

/-- `delete actions[key]` for a statically known key (line 86). -/
def eraseKey (fs : List (String × JSVal)) (k : String) : List (String × JSVal) :=
  fs.filter (fun kv => kv.1 != k)

/-- `actions[k] = v` (line 89): updates the entry in place when the key is
present, appends it otherwise (JavaScript property insertion order). -/
def objSet (fs : List (String × JSVal)) (k : String) (v : JSVal) :
    List (String × JSVal) :=
  if containsKey fs k then
    fs.map (fun kv => if kv.1 == k then (k, v) else kv)
  else fs ++ [(k, v)]

/-- `actions[action]` (line 105); a missing key reads as `undefined`. -/
def objGet (fs : List (String × JSVal)) (k : String) : JSVal :=
  match fs.find? (fun kv => kv.1 == k) with
  | some kv => kv.2
  | none => .prim .undefined

/-- The guard of line 108 negated: the argument-pool processing is skipped
exactly when the descriptor is `undefined`, `null`, a number (including
`NaN`) or a boolean; in that case `arg` stays `null`. -/
def skipsArgPick : JSVal → Bool
  | .prim .undefined => true
  | .prim .null => true
  | .prim (.num _) => true
  | .prim .nan => true
  | .prim (.bool _) => true
  | _ => false

/-- The enumerable keys iterated by `for (const arg in args)` (line 110):
index strings for arrays and strings, field names for objects. -/
def forInKeys : JSVal → List String
  | .arr xs => (List.range xs.length).map toString
  | .obj fs => fs.map Prod.fst
  | .prim (.str s) => (List.range s.length).map toString
  | _ => []

/-- `isNaN(key)` for a property-key string: whether `Number(key)` is NaN.
Modelled for the key strings arising here: the empty string converts to 0,
optionally negated decimal integer strings convert to their value, and
other strings convert to NaN. -/
def jsIsNaN (s : String) : Bool :=
  match s.data with
  | [] => false
  | '-' :: rest => !(!rest.isEmpty && rest.all Char.isDigit)
  | cs => !(cs.all Char.isDigit)

/-- The candidate elements `pickValue` draws from: array elements, or the
characters of a string; objects are not array-like. -/
def toElems : JSVal → Option (List JSVal)
  | .arr xs => some (xs.map JSVal.prim)
  | .prim (.str s) => some (s.data.map (fun c => JSVal.prim (.str c.toString)))
  | _ => none

/-- Modelled from the spec (the `FuzzedDataProvider` implementation lives in
the external jazzer.js library, not in this repository): a mutable cursor
over the fuzz input buffer; `remainingBytes` is the number of unconsumed
bytes. -/
structure FuzzedDataProvider where
  bytes : List Nat
deriving DecidableEq

def FuzzedDataProvider.remainingBytes (d : FuzzedDataProvider) : Nat :=
  d.bytes.length

/-- Big-endian value of a byte slice (bytes reduced mod 256). -/
def beval (bs : List Nat) : Nat :=
  bs.foldl (fun acc b => acc * 256 + b % 256) 0

/-- Number of bytes needed to cover a range of `r` values (fuel-bounded
base-256 logarithm; ranges here never exceed 256^8). -/
def byteWidthAux : Nat → Nat → Nat
  | 0, _ => 0
  | fuel+1, r => if r ≤ 1 then 0 else byteWidthAux fuel ((r + 255) / 256) + 1

def byteWidth (r : Nat) : Nat := byteWidthAux 8 r

/-- Modelled from the spec: the Choice Provider's bounded-integer draw
"consumes a fixed-width slice of the remaining buffer and maps it into
range via modulo/rescale"; an exhausted buffer is not padded, the short
slice simply evaluates to a small value. -/
def consumeIntegralInRange (d : FuzzedDataProvider) (lo hi : Int) :
    Int × FuzzedDataProvider :=
  if hi < lo then (lo, d)
  else
    let range : Nat := (hi - lo).toNat + 1
    let w := byteWidth range
    (lo + ((beval (d.bytes.take w)) % range : Nat), ⟨d.bytes.drop w⟩)

/-- Modelled from the spec: `pickValue(collection)` indexes the collection
by a bounded-integer draw over its index range and fails the run when the
collection is empty. -/
def pickValue [Inhabited α] (d : FuzzedDataProvider) (xs : List α) :
    Except String (α × FuzzedDataProvider) :=
  if xs.isEmpty then .error "pickValue: empty collection"
  else
    let p := consumeIntegralInRange d 0 ((xs.length : Int) - 1)
    .ok (xs.getD p.1.toNat default, p.2)

/-- `pick` (line 19) in deterministic mode: `data.pickValue(a)`. -/
def pick [Inhabited α] (d : FuzzedDataProvider) (a : List α) :
    Except String (α × FuzzedDataProvider) :=
  pickValue d a

/-- `rnd` (line 28) in deterministic mode:
`data.consumeIntegralInRange(min, max)`. -/
def rnd (d : FuzzedDataProvider) (lo hi : Int) : Int × FuzzedDataProvider :=
  consumeIntegralInRange d lo hi

/-- The game state as far as the driver reads it: the `active` role field,
the `state` field tested against `"game_over"`, and an opaque payload
standing for everything else the engine stores. -/
structure GameState where
  active : String
  state : String
  data : Nat
deriving DecidableEq, Inhabited

/-- The per-role view: the optional `actions` mapping (`none` models an
absent or falsy `actions` field, line 78) and an opaque payload for the
rest of the view. -/
structure View where
  actions : Option (List (String × JSVal))
  vdata : Nat
deriving DecidableEq, Inhabited

/-- The rules-engine interface consumed by the driver (lines 17, 42, 53,
67, 88, 121, 133, 135).  `action` and `resign` return `Except` because the
driver catches exceptions they throw; `setup` and `view` are modelled as
total (their exceptions are outside every claim).  The optional `fuzz_log`
callback is observational with no bearing on control flow and is omitted. -/
structure Rules where
  roles : List String
  scenarios : List String
  setup : Int → String → GameState
  view : GameState → String → View
  action : GameState → String → String → JSVal → Except String GameState
  resign : Option (GameState → String → Except String GameState)

/-- The environment configuration of lines 7-10 relevant to the driver
loop (RND is fixed to false: deterministic mode). -/
structure Config where
  MAX_STEPS : Nat
  NO_UNDO : Bool
  NO_RESIGN : Bool
deriving DecidableEq

/-- `game_setup` (lines 47-51); `options` is always the empty object and
is omitted. -/
structure GameSetup where
  seed : Int
  scenario : String
deriving DecidableEq

/-- The full diagnostic context passed to `log_crash` (line 146): the view
and step summary printed to the diagnostic stream, and the state persisted
to crash-state.json. -/
structure CrashDump where
  setup : GameSetup
  state : GameState
  view : View
  step : Nat
  active : String
  action : Option String
  args : Option JSVal
deriving DecidableEq

/-- `log_crash` (lines 146-158): builds the diagnostic record whose view
and summary are printed and whose state is written to crash-state.json. -/
def log_crash (gs : GameSetup) (state : GameState) (view : View) (step : Nat)
    (active : String) (action : Option String) (args : Option JSVal) : CrashDump :=
  ⟨gs, state, view, step, active, action, args⟩

/-- One entry of the decision sequence: provider draws (seed, scenario,
role resolution, action pick with the normalized set it was drawn from,
argument pick with its pool) and the acceptance of an applied action (the
`step += 1` of line 141). -/
inductive Event where
  | seed (n : Int)
  | scenario (s : String)
  | role (r : String)
  | action (chosen : String) (acts : List (String × JSVal))
  | arg (v : JSVal) (pool : List JSVal)
  | applied (a : String)
deriving DecidableEq

/-- How a run of `fuzz` ends.  The four classified errors each carry the
diagnostic dump produced by the `log_crash` call immediately preceding the
throw; `jsError` is an exception the driver itself does not classify
(it escapes without any dump); `fuelExhausted` is an artifact of the
fuel-bounded loop encoding and is proved unreachable. -/
inductive Outcome where
  | insufficientInput
  | gameOver (final : GameState)
  | maxSteps (dump : CrashDump)
  | noActions (dump : CrashDump) (msg : String)
  | invalidArg (dump : CrashDump) (msg : String)
  | rulesCrash (dump : CrashDump) (err : String)
  | jsError (msg : String)
  | fuelExhausted
deriving DecidableEq

structure FuzzResult where
  outcome : Outcome
  events : List Event
deriving DecidableEq

/-- The dump attached to a classified failure, if any. -/
def dumpOf : Outcome → Option CrashDump
  | .maxSteps dp => some dp
  | .noActions dp _ => some dp
  | .invalidArg dp _ => some dp
  | .rulesCrash dp _ => some dp
  | _ => none

/-- Whether the run wrote the crash-state.json artifact: `log_crash` runs
exactly once before each classified throw and nowhere else. -/
def artifactWritten (o : Outcome) : Bool := (dumpOf o).isSome

def isApplied : Event → Bool
  | .applied _ => true
  | _ => false

/-- Number of accepted (successfully applied) actions recorded in a
decision sequence. -/
def acceptedCount (tr : List Event) : Nat := (tr.filter isApplied).length

/-- Lines 61-65: resolve the active role, picking one from `RULES.roles`
when the state says several may act. -/
def resolveActive (R : Rules) (state : GameState) (d : FuzzedDataProvider)
    (tr : List Event) :
    Except String (String × FuzzedDataProvider × List Event) :=
  if state.active = "Both" ∨ state.active = "All" then
    match pick d R.roles with
    | .error e => .error e
    | .ok (a, d1) => .ok (a, d1, tr ++ [Event.role a])
  else .ok (state.active, d, tr)

/-- Lines 83-98: the normalization pass over the actions mapping — undo
removal, synthetic `_resign` injection (descriptor `1`), and removal of
disabled actions.  The source applies this to `view.actions` itself
(`let actions = view.actions` aliases, it does not copy). -/
def normalizeActions (R : Rules) (cfg : Config)
    (acts0 : List (String × JSVal)) : Except String (List (String × JSVal)) :=
  let acts1 := if cfg.NO_UNDO ∧ containsKey acts0 "undo"
               then eraseKey acts0 "undo" else acts0
  let acts2 := if ¬cfg.NO_RESIGN ∧ R.resign.isSome
               then objSet acts1 "_resign" (.prim (.num 1)) else acts1
  filterActions acts2

/-- Result of the argument-resolution phase (lines 106-118). -/
inductive ArgResult where
  | nanHalt
  | jsErr (e : String)
  | picked (arg : JSVal) (d : FuzzedDataProvider) (tr : List Event)
deriving DecidableEq

/-- Lines 106-118: `arg` starts as `null`; for a pool descriptor the keys
are scanned with `isNaN` (note: the keys, not the values) and then one
element is picked. -/
def chooseArg (args : JSVal) (d : FuzzedDataProvider) (tr : List Event) :
    ArgResult :=
  if skipsArgPick args then .picked (.prim .null) d tr
  else if (forInKeys args).any jsIsNaN then .nanHalt
  else match toElems args with
    | none => .jsErr "pickValue: collection is not array-like"
    | some pool =>
      match pick d pool with
      | .error e => .jsErr e
      | .ok (argv, d1) => .picked argv d1 (tr ++ [Event.arg argv pool])

/-- One iteration of the while loop either halts the run or hands the next
state, provider and trace to the following iteration. -/
inductive StepResult where
  | halt (r : FuzzResult)
  | next (state : GameState) (d : FuzzedDataProvider) (tr : List Event)
deriving DecidableEq

/-- The body of the try block (lines 132-136): `RULES.action` for an
ordinary action, `RULES.resign` for the synthetic one; calling a missing
`resign` raises a TypeError inside the try block (which the catch then
wraps like any engine failure). -/
def applyResult (R : Rules) (state : GameState) (active action : String)
    (arg : JSVal) : Except String GameState :=
  if action ≠ "_resign" then R.action state active action arg
  else match R.resign with
       | some f => f state active
       | none => .error "TypeError: RULES.resign is not a function"

/-- Lines 131-141: apply the chosen action, wrapping any engine failure as
a RulesCrashError after dumping diagnostics.  On success the returned state
wholly replaces the game state and the step counter advances (`step += 1`,
recorded as an `applied` event). -/
def applyAction (R : Rules) (gs : GameSetup) (step : Nat) (state : GameState)
    (view1 : View) (active action : String) (arg : JSVal)
    (d : FuzzedDataProvider) (tr : List Event) : StepResult :=
  match applyResult R state active action arg with
  | .error e =>
    .halt ⟨.rulesCrash (log_crash gs state view1 step active (some action) (some arg)) e, tr⟩
  | .ok st1 => .next st1 d (tr ++ [Event.applied action])

/-- The body of the while loop (lines 56-142), in source order: the
minimum-bytes guard, active-role resolution, view computation, the step
bound, the terminal check, the actions-presence check, normalization
(mutating the view's actions in place), emptiness check, action pick,
argument resolution, and application. -/
def fuzzStep (R : Rules) (cfg : Config) (gs : GameSetup) (step : Nat)
    (state : GameState) (d : FuzzedDataProvider) (tr : List Event) : StepResult :=
  if d.remainingBytes < 16 then .halt ⟨.insufficientInput, tr⟩
  else
    match resolveActive R state d tr with
    | .error e => .halt ⟨.jsError e, tr⟩
    | .ok (active, d1, tr1) =>
      let view := R.view state active
      if cfg.MAX_STEPS < step then
        .halt ⟨.maxSteps (log_crash gs state view step active none none), tr1⟩
      else if state.state = "game_over" then
        .halt ⟨.gameOver state, tr1⟩
      else
        match view.actions with
        | none =>
          .halt ⟨.noActions (log_crash gs state view step active none none)
                  "No actions defined", tr1⟩
        | some acts0 =>
          match normalizeActions R cfg acts0 with
          | .error e => .halt ⟨.jsError e, tr1⟩
          | .ok acts3 =>
            let view1 : View := { view with actions := some acts3 }
            if acts3.isEmpty then
              .halt ⟨.noActions (log_crash gs state view1 step active none none)
                      "No more actions to take (besides undo)", tr1⟩
            else
              match pick d1 (acts3.map Prod.fst) with
              | .error e => .halt ⟨.jsError e, tr1⟩
              | .ok (action, d2) =>
                let tr2 := tr1 ++ [Event.action action acts3]
                let args := objGet acts3 action
                match chooseArg args d2 tr2 with
                | .nanHalt =>
                  .halt ⟨.invalidArg (log_crash gs state view1 step active none none)
                          ("Action " ++ action ++ " argument has NaN value"), tr2⟩
                | .jsErr e => .halt ⟨.jsError e, tr2⟩
                | .picked arg d3 tr3 =>
                  applyAction R gs step state view1 active action arg d3 tr3

/-- The while loop, fuel-bounded.  Each iteration that continues increments
the step counter by exactly one, so fuel `MAX_STEPS + 2` always suffices
(proved below); `fuelExhausted` never occurs in a run of `fuzz`. -/
def fuzzLoop (R : Rules) (cfg : Config) (gs : GameSetup) :
    Nat → Nat → GameState → FuzzedDataProvider → List Event → FuzzResult
  | 0, _, _, _, tr => ⟨.fuelExhausted, tr⟩
  | fuel+1, step, state, d, tr =>
    match fuzzStep R cfg gs step state d tr with
    | .halt r => r
    | .next st1 d1 tr1 => fuzzLoop R cfg gs fuel (step+1) st1 d1 tr1

/-- `module.exports.fuzz` (lines 35-143) in deterministic mode: the
insufficient-input sentinel on a short buffer, the seed draw
`rnd(data, 1, 2**35-31)`, the scenario pick, the setup call, and the turn
loop started with step counter 0. -/
def fuzz (R : Rules) (cfg : Config) (input : List Nat) : FuzzResult :=
  let d : FuzzedDataProvider := ⟨input⟩
  if d.remainingBytes < 16 then ⟨.insufficientInput, []⟩
  else
    let sd := rnd d 1 (2 ^ 35 - 31)
    let tr := [Event.seed sd.1]
    match pick sd.2 R.scenarios with
    | .error e => ⟨.jsError e, tr⟩
    | .ok (scen, d2) =>
      let tr2 := tr ++ [Event.scenario scen]
      let gs : GameSetup := ⟨sd.1, scen⟩
      let state := R.setup sd.1 scen
      fuzzLoop R cfg gs (cfg.MAX_STEPS + 2) 0 state d2 tr2

/-- Soundness of the recorded action picks: every `action` event carries a
chosen name that is a member of the normalized set it was drawn from, and
that set contains no disabled action. -/
def goodActionEvents (tr : List Event) : Prop :=
  ∀ chosen acts, Event.action chosen acts ∈ tr →
    chosen ∈ acts.map Prod.fst ∧ ∀ kv ∈ acts, deletableE kv.2 = .ok false

/-- The view recorded in a diagnostic dump: either the engine-produced view
verbatim (failures detected before normalization) or that view with its
actions mapping replaced by the normalized set (the source normalizes
`view.actions` in place, so later dumps show the normalized mapping). -/
def dumpViewNormalized (R : Rules) (cfg : Config) (dp : CrashDump) : Prop :=
  dp.view = R.view dp.state dp.active ∨
  ∃ acts0 acts3, (R.view dp.state dp.active).actions = some acts0 ∧
    normalizeActions R cfg acts0 = .ok acts3 ∧
    dp.view = { R.view dp.state dp.active with actions := some acts3 }

/-- An outcome of the four classified error kinds, or a benign end of run
(normal game over or the insufficient-input sentinel): nothing escaped the
driver unclassified.  Each classified error constructor carries the
diagnostic dump that `log_crash` produced immediately before the throw. -/
def classifiedOutcome : Outcome → Prop
  | .jsError _ => False
  | .fuelExhausted => False
  | _ => True

/-! ### Concrete rules engines and configurations used as witnesses -/

/-- A small well-behaved engine: one enabled action `go` with a numeric
descriptor; the game ends after three applied actions. -/
def okEngine : Rules where
  roles := ["A", "B"]
  scenarios := ["Std"]
  setup := fun _ _ => ⟨"A", "run", 0⟩
  view := fun _ _ => ⟨some [("go", .prim (.num 1))], 0⟩
  action := fun s _ _ _ =>
    if s.data ≥ 2 then .ok ⟨"A", "game_over", s.data⟩ else .ok ⟨"A", "run", s.data + 1⟩
  resign := none

/-- An engine whose view carries a `null` action descriptor: the
disabled-action filter reads `.length` of `null` and throws a TypeError
that the driver does not classify. -/
def nullEngine : Rules where
  roles := ["A"]
  scenarios := ["Std"]
  setup := fun _ _ => ⟨"A", "run", 0⟩
  view := fun _ _ => ⟨some [("x", .prim .null)], 0⟩
  action := fun s _ _ _ => .ok s
  resign := none

/-- An engine offering an argument pool that is exactly `[NaN]`. -/
def nanEngine : Rules where
  roles := ["A"]
  scenarios := ["Std"]
  setup := fun _ _ => ⟨"A", "run", 0⟩
  view := fun _ _ => ⟨some [("go", .arr [.nan])], 0⟩
  action := fun _ _ _ _ => .ok ⟨"A", "game_over", 1⟩
  resign := none

/-- An engine whose action application succeeds twice and throws on the
third applied action. -/
def crash3Engine : Rules where
  roles := ["A"]
  scenarios := ["Std"]
  setup := fun _ _ => ⟨"A", "run", 0⟩
  view := fun _ _ => ⟨some [("go", .prim (.num 1))], 0⟩
  action := fun s _ _ _ =>
    if s.data ≥ 2 then .error "boom" else .ok ⟨"A", "run", s.data + 1⟩
  resign := none

/-- An engine declaring resignation support whose views expose an empty
actions mapping, and whose resignation operation fails. -/
def resignEngine : Rules where
  roles := ["A"]
  scenarios := ["Std"]
  setup := fun _ _ => ⟨"A", "run", 0⟩
  view := fun _ _ => ⟨some [], 0⟩
  action := fun s _ _ _ => .ok s
  resign := some (fun _ _ => .error "resign failed")

/-- An engine whose setup returns an immediately terminal state. -/
def goEngine : Rules where
  roles := ["A"]
  scenarios := ["Std"]
  setup := fun _ _ => ⟨"A", "game_over", 0⟩
  view := fun _ _ => ⟨none, 0⟩
  action := fun s _ _ _ => .ok s
  resign := none

/-- A small configuration: step bound 5, undo removal off, resign offered. -/
def cfgI : Config := ⟨5, false, false⟩

/-- A 32-byte all-zero fuzz input. -/
def bufW : List Nat := List.replicate 32 0

instance (o : Outcome) : Decidable (classifiedOutcome o) :=
  match o with
  | .jsError _ => isFalse (fun h => h)
  | .fuelExhausted => isFalse (fun h => h)
  | .insufficientInput => isTrue trivial
  | .gameOver _ => isTrue trivial
  | .maxSteps _ => isTrue trivial
  | .noActions _ _ => isTrue trivial
  | .invalidArg _ _ => isTrue trivial
  | .rulesCrash _ _ => isTrue trivial

/-- The diagnostic dump produced by the run of `resignEngine` on `bufW`:
the resignation application fails on step 0 and the dumped view carries the
normalized actions mapping (with the injected `_resign`), not the raw empty
mapping the engine returned. -/
def dumpResign : CrashDump :=
  ⟨⟨1, "Std"⟩, ⟨"A", "run", 0⟩, ⟨some [("_resign", .prim (.num 1))], 0⟩, 0,
    "A", some "_resign", some (.prim .null)⟩

/-- The diagnostic dump produced by the run of `crash3Engine` on `bufW`:
the third applied action throws, the step counter is frozen at 2 and the
persisted state is the pre-failure state after two accepted actions. -/
def dumpBoom : CrashDump :=
  ⟨⟨1, "Std"⟩, ⟨"A", "run", 2⟩, ⟨some [("go", .prim (.num 1))], 0⟩, 2,
    "A", some "go", some (.prim .null)⟩

/-- An engine whose game never ends: one always-enabled action that keeps
the state running, so the step bound is the only way the loop can stop. -/
def loopEngine : Rules where
  roles := ["A"]
  scenarios := ["Std"]
  setup := fun _ _ => ⟨"A", "run", 0⟩
  view := fun _ _ => ⟨some [("go", .prim (.num 1))], 0⟩
  action := fun s _ _ _ => .ok ⟨"A", "run", s.data + 1⟩
  resign := none

/-- The diagnostic dump produced by the run of `loopEngine` on `bufW` with
the step bound 5: six actions are accepted (steps 0 through 5) and the
seventh iteration raises BoundExceeded with the counter frozen at 6. -/
def dumpLoop : CrashDump :=
  ⟨⟨1, "Std"⟩, ⟨"A", "run", 6⟩, ⟨some [("go", .prim (.num 1))], 0⟩, 6,
    "A", none, none⟩

deriving instance DecidableEq for Except

/-! ### Helper lemmas about the provider -/

theorem exceptBind_eq_ok {ε α β : Type} {x : Except ε α} {f : α → Except ε β}
    {b : β} (h : (x >>= f) = .ok b) : ∃ a, x = .ok a ∧ f a = .ok b := by
  cases x with
  | error e => simp [Bind.bind, Except.bind] at h
  | ok a => exact ⟨a, rfl, h⟩

theorem acceptedCount_append (l1 l2 : List Event) :
    acceptedCount (l1 ++ l2) = acceptedCount l1 + acceptedCount l2 := by
  simp [acceptedCount, List.filter_append]

theorem acceptedCount_role (a : String) : acceptedCount [Event.role a] = 0 := rfl

theorem acceptedCount_action (a : String) (acts : List (String × JSVal)) :
    acceptedCount [Event.action a acts] = 0 := rfl

theorem acceptedCount_arg (v : JSVal) (pool : List JSVal) :
    acceptedCount [Event.arg v pool] = 0 := rfl

theorem acceptedCount_applied (a : String) : acceptedCount [Event.applied a] = 1 := rfl

theorem consume_index_lt (d : FuzzedDataProvider) (n : Nat) (hn : 0 < n) :
    ((consumeIntegralInRange d 0 ((n : Int) - 1)).1).toNat < n := by
  unfold consumeIntegralInRange
  rw [if_neg (by omega)]
  have hrange : ((((n : Int) - 1) - 0)).toNat + 1 = n := by omega
  simp only [zero_add, Int.toNat_natCast, hrange]
  exact Nat.mod_lt _ hn

theorem pickValue_ok_of_ne_nil [Inhabited α] (d : FuzzedDataProvider)
    (xs : List α) (h : xs ≠ []) :
    ∃ a d1, pickValue d xs = .ok (a, d1) := by
  unfold pickValue
  rw [if_neg (by simpa [List.isEmpty_iff] using h)]
  exact ⟨_, _, rfl⟩

theorem pickValue_mem [Inhabited α] {d : FuzzedDataProvider} {xs : List α}
    {a : α} {d1 : FuzzedDataProvider}
    (h : pickValue d xs = .ok (a, d1)) : a ∈ xs := by
  unfold pickValue at h
  by_cases hx : xs.isEmpty
  · rw [if_pos hx] at h; cases h
  · rw [if_neg hx] at h
    have hne : xs ≠ [] := by simpa [List.isEmpty_iff] using hx
    have hlen : 0 < xs.length := List.length_pos.mpr hne
    have hidx := consume_index_lt d xs.length hlen
    have : a = xs.getD ((consumeIntegralInRange d 0 ((xs.length : Int) - 1)).1).toNat default := by
      cases h; rfl
    rw [this, List.getD_eq_getElem _ _ hidx]
    exact List.getElem_mem hidx

theorem pickValue_ne_error [Inhabited α] (d : FuzzedDataProvider)
    {xs : List α} (h : xs ≠ []) (e : String) :
    pickValue d xs ≠ .error e := by
  obtain ⟨a, d1, hok⟩ := pickValue_ok_of_ne_nil d xs h
  simp [hok]

/-! ### Helper lemmas about the disabled-action filter -/

theorem deletableE_isOk (v : JSVal) (h0 : v ≠ .prim .null)
    (h1 : v ≠ .prim .undefined) : ∃ b, deletableE v = .ok b := by
  rcases v with p | xs | fs
  · rcases p with _ | _ | b | n | _ | s
    · exact absurd rfl h1
    · exact absurd rfl h0
    · rcases b with _ | _ <;> exact ⟨_, rfl⟩
    · by_cases hn : n = 0
      · subst hn; exact ⟨_, rfl⟩
      · refine ⟨false, ?_⟩
        unfold deletableE
        rw [if_neg (show ¬(JSVal.prim (.num n) = .prim (.bool false)) by simp),
            if_neg (show ¬(JSVal.prim (.num n) = .prim (.num 0)) by simp [hn])]
        rfl
    · exact ⟨_, rfl⟩
    · exact ⟨_, rfl⟩
  · exact ⟨_, rfl⟩
  · exact ⟨_, rfl⟩

theorem deletableE_num_one : deletableE (.prim (.num 1)) = .ok false := rfl

theorem deletableE_arr_ne_nil {xs : List JSPrim}
    (h : deletableE (.arr xs) = .ok false) : xs ≠ [] := by
  intro hx; subst hx; cases h

theorem deletableE_str_ne_empty {s : String}
    (h : deletableE (.prim (.str s)) = .ok false) : s ≠ "" := by
  intro hx; subst hx; cases h

theorem deletableE_not_disabled {v : JSVal} (h : deletableE v = .ok false) :
    v ≠ .prim (.bool false) ∧ v ≠ .prim (.num 0) ∧ v ≠ .arr [] ∧
      v ≠ .prim (.str "") := by
  refine ⟨?_, ?_, ?_, ?_⟩ <;> intro hx <;> subst hx <;> cases h

theorem filterActions_mem {l res : List (String × JSVal)}
    (h : filterActions l = .ok res) (kv : String × JSVal) :
    kv ∈ res ↔ kv ∈ l ∧ deletableE kv.2 = .ok false := by
  induction l generalizing res with
  | nil =>
    cases h
    simp
  | cons hd tl ih =>
    rcases hd with ⟨k, v⟩
    unfold filterActions at h
    obtain ⟨del, hdel, h⟩ := exceptBind_eq_ok h
    obtain ⟨tail, htl, h⟩ := exceptBind_eq_ok h
    injection h with h
    subst h
    cases del with
    | false =>
      rw [if_neg (show ¬(false = true) by simp)]
      simp only [List.mem_cons]
      constructor
      · rintro (hkv | hkv)
        · subst hkv; exact ⟨Or.inl rfl, hdel⟩
        · obtain ⟨hm, hd⟩ := (ih htl).mp hkv
          exact ⟨Or.inr hm, hd⟩
      · rintro ⟨hkv | hkv, hd⟩
        · exact Or.inl hkv
        · exact Or.inr ((ih htl).mpr ⟨hkv, hd⟩)
    | true =>
      rw [if_pos rfl]
      simp only [List.mem_cons]
      constructor
      · intro hkv
        obtain ⟨hm, hd⟩ := (ih htl).mp hkv
        exact ⟨Or.inr hm, hd⟩
      · rintro ⟨hkv | hkv, hd⟩
        · subst hkv; rw [hdel] at hd; cases hd
        · exact (ih htl).mpr ⟨hkv, hd⟩

theorem filterActions_isOk {l : List (String × JSVal)}
    (h : ∀ kv ∈ l, kv.2 ≠ .prim .null ∧ kv.2 ≠ .prim .undefined) :
    ∃ res, filterActions l = .ok res := by
  induction l with
  | nil => exact ⟨[], rfl⟩
  | cons hd tl ih =>
    obtain ⟨h0, h1⟩ := h hd (List.mem_cons_self _ _)
    obtain ⟨b, hb⟩ := deletableE_isOk hd.2 h0 h1
    obtain ⟨tail, htl⟩ := ih (fun kv hkv => h kv (List.mem_cons_of_mem _ hkv))
    refine ⟨if b then tail else hd :: tail, ?_⟩
    rcases hd with ⟨k, v⟩
    unfold filterActions
    rw [hb, htl]
    rfl

/-! ### Helper lemmas about the actions mapping -/

theorem eraseKey_subset {fs : List (String × JSVal)} {k : String}
    {kv : String × JSVal} (h : kv ∈ eraseKey fs k) : kv ∈ fs :=
  List.mem_of_mem_filter h

theorem objSet_self_mem (fs : List (String × JSVal)) (k : String) (v : JSVal) :
    (k, v) ∈ objSet fs k v := by
  unfold objSet
  by_cases hc : containsKey fs k
  · rw [if_pos hc]
    unfold containsKey at hc
    obtain ⟨kv, hkv, hp⟩ := List.any_eq_true.mp hc
    refine List.mem_map.mpr ⟨kv, hkv, ?_⟩
    rw [if_pos hp]
  · rw [if_neg hc]
    simp

theorem objSet_mem {fs : List (String × JSVal)} {k : String} {v : JSVal}
    {kv : String × JSVal} (h : kv ∈ objSet fs k v) :
    kv ∈ fs ∨ kv = (k, v) := by
  unfold objSet at h
  by_cases hc : containsKey fs k
  · rw [if_pos hc] at h
    obtain ⟨kv0, hkv0, heq⟩ := List.mem_map.mp h
    by_cases hp : kv0.1 == k
    · rw [if_pos hp] at heq; exact Or.inr heq.symm
    · rw [if_neg hp] at heq; exact Or.inl (heq ▸ hkv0)
  · rw [if_neg hc] at h
    rcases List.mem_append.mp h with hm | hm
    · exact Or.inl hm
    · exact Or.inr (List.mem_singleton.mp hm)

theorem objGet_cases (fs : List (String × JSVal)) (k : String) :
    objGet fs k = .prim .undefined ∨ ∃ kk, (kk, objGet fs k) ∈ fs := by
  unfold objGet
  cases hf : fs.find? (fun kv => kv.1 == k) with
  | none => exact Or.inl rfl
  | some kv =>
    refine Or.inr ⟨kv.1, ?_⟩
    have := List.mem_of_find?_eq_some hf
    simpa using this

/-! ### Helper lemmas about normalization -/

theorem normalizeActions_mem {R : Rules} {cfg : Config}
    {acts0 res : List (String × JSVal)}
    (h : normalizeActions R cfg acts0 = .ok res) :
    ∀ kv ∈ res, (kv ∈ acts0 ∨ kv = ("_resign", .prim (.num 1))) ∧
      deletableE kv.2 = .ok false := by
  intro kv hkv
  simp only [normalizeActions] at h
  obtain ⟨hm, hd⟩ := (filterActions_mem h kv).mp hkv
  refine ⟨?_, hd⟩
  by_cases hr : ¬cfg.NO_RESIGN ∧ R.resign.isSome
  · rw [if_pos hr] at hm
    rcases objSet_mem hm with hm1 | hm1
    · by_cases hu : cfg.NO_UNDO ∧ containsKey acts0 "undo"
      · rw [if_pos hu] at hm1; exact Or.inl (eraseKey_subset hm1)
      · rw [if_neg hu] at hm1; exact Or.inl hm1
    · exact Or.inr hm1
  · rw [if_neg hr] at hm
    by_cases hu : cfg.NO_UNDO ∧ containsKey acts0 "undo"
    · rw [if_pos hu] at hm; exact Or.inl (eraseKey_subset hm)
    · rw [if_neg hu] at hm; exact Or.inl hm

theorem normalizeActions_isOk {R : Rules} {cfg : Config}
    {acts0 : List (String × JSVal)}
    (h : ∀ kv ∈ acts0, kv.2 ≠ .prim .null ∧ kv.2 ≠ .prim .undefined) :
    ∃ res, normalizeActions R cfg acts0 = .ok res := by
  simp only [normalizeActions]
  apply filterActions_isOk
  intro kv hkv
  by_cases hr : ¬cfg.NO_RESIGN ∧ R.resign.isSome
  · rw [if_pos hr] at hkv
    rcases objSet_mem hkv with hm | hm
    · by_cases hu : cfg.NO_UNDO ∧ containsKey acts0 "undo"
      · rw [if_pos hu] at hm; exact h kv (eraseKey_subset hm)
      · rw [if_neg hu] at hm; exact h kv hm
    · subst hm; exact ⟨by simp, by simp⟩
  · rw [if_neg hr] at hkv
    by_cases hu : cfg.NO_UNDO ∧ containsKey acts0 "undo"
    · rw [if_pos hu] at hkv; exact h kv (eraseKey_subset hkv)
    · rw [if_neg hu] at hkv; exact h kv hkv

theorem normalizeActions_resign_mem {R : Rules} {cfg : Config}
    {acts0 res : List (String × JSVal)} (hres : R.resign.isSome)
    (hnr : cfg.NO_RESIGN = false)
    (h : normalizeActions R cfg acts0 = .ok res) :
    ("_resign", JSVal.prim (.num 1)) ∈ res := by
  simp only [normalizeActions] at h
  have hcond : (¬cfg.NO_RESIGN = true ∧ R.resign.isSome = true) := by
    simp [hnr, hres]
  rw [if_pos hcond] at h
  exact (filterActions_mem h _).mpr ⟨objSet_self_mem _ _ _, rfl⟩

/-! ### Step-level lemmas -/

theorem string_data_ne_nil {s : String} (h : s ≠ "") : s.data ≠ [] := by
  intro hd
  apply h
  cases s with
  | mk data => rw [show data = [] from hd]

theorem resolveActive_ne_error {R : Rules} (hroles : R.roles ≠ [])
    (state : GameState) (d : FuzzedDataProvider) (tr : List Event) (e : String) :
    resolveActive R state d tr ≠ .error e := by
  unfold resolveActive
  by_cases hb : state.active = "Both" ∨ state.active = "All"
  · rw [if_pos hb]
    obtain ⟨a, d1, hok⟩ := pickValue_ok_of_ne_nil d R.roles hroles
    unfold pick
    rw [hok]
    simp
  · rw [if_neg hb]; simp

theorem resolveActive_ok_facts {R : Rules} {state : GameState}
    {d : FuzzedDataProvider} {tr : List Event} {active : String}
    {d1 : FuzzedDataProvider} {tr1 : List Event}
    (h : resolveActive R state d tr = .ok (active, d1, tr1)) :
    acceptedCount tr1 = acceptedCount tr ∧
    ∀ chosen acts, Event.action chosen acts ∈ tr1 ↔ Event.action chosen acts ∈ tr := by
  unfold resolveActive at h
  by_cases hb : state.active = "Both" ∨ state.active = "All"
  · rw [if_pos hb] at h
    cases hp : pick d R.roles with
    | error e => rw [hp] at h; cases h
    | ok p =>
      obtain ⟨a0, dd⟩ := p
      rw [hp] at h
      injection h with h
      injection h with h1 h
      injection h with h2 h3
      subst h1; subst h2; subst h3
      constructor
      · simp [acceptedCount_append, acceptedCount_role]
      · intro chosen acts
        simp [List.mem_append]
  · rw [if_neg hb] at h
    injection h with h
    injection h with h1 h
    injection h with h2 h3
    subst h2; subst h3
    exact ⟨rfl, fun _ _ => Iff.rfl⟩

theorem chooseArg_picked_facts {args : JSVal} {d : FuzzedDataProvider}
    {tr : List Event} {arg : JSVal} {d1 : FuzzedDataProvider} {tr1 : List Event}
    (h : chooseArg args d tr = .picked arg d1 tr1) :
    acceptedCount tr1 = acceptedCount tr ∧
    ∀ chosen acts, Event.action chosen acts ∈ tr1 ↔ Event.action chosen acts ∈ tr := by
  unfold chooseArg at h
  split at h
  · injection h with h1 h2 h3
    subst h3
    exact ⟨rfl, fun _ _ => Iff.rfl⟩
  · split at h
    · cases h
    · split at h
      · cases h
      · split at h
        · cases h
        · injection h with h1 h2 h3
          subst h3
          constructor
          · simp [acceptedCount_append, acceptedCount_arg]
          · intro chosen acts
            simp [List.mem_append]

theorem chooseArg_ne_jsErr {args : JSVal} {d : FuzzedDataProvider}
    {tr : List Event} (hobj : ∀ fs, args ≠ .obj fs)
    (hdel : deletableE args = .ok false) (e : String) :
    chooseArg args d tr ≠ .jsErr e := by
  unfold chooseArg
  by_cases hs : skipsArgPick args
  · rw [if_pos hs]; simp
  · rw [if_neg hs]
    by_cases hnan : (forInKeys args).any jsIsNaN
    · rw [if_pos hnan]; simp
    · rw [if_neg hnan]
      rcases args with p | xs | fs
      · rcases p with _ | _ | b | n | _ | s
        · exact absurd (show skipsArgPick (.prim .undefined) = true from rfl) hs
        · exact absurd (show skipsArgPick (.prim .null) = true from rfl) hs
        · exact absurd (show skipsArgPick (.prim (.bool b)) = true from rfl) hs
        · exact absurd (show skipsArgPick (.prim (.num n)) = true from rfl) hs
        · exact absurd (show skipsArgPick (.prim .nan) = true from rfl) hs
        · have hne : s.data.map (fun c => JSVal.prim (.str c.toString)) ≠ [] := by
            have := string_data_ne_nil (deletableE_str_ne_empty hdel)
            simpa using this
          obtain ⟨a, d1, hok⟩ := pickValue_ok_of_ne_nil d _ hne
          simp only [toElems]
          unfold pick
          rw [hok]
          simp
      · have hne : xs.map JSVal.prim ≠ [] := by
          have := deletableE_arr_ne_nil hdel
          simpa using this
        obtain ⟨a, d1, hok⟩ := pickValue_ok_of_ne_nil d _ hne
        simp only [toElems]
        unfold pick
        rw [hok]
        simp
      · exact absurd rfl (hobj fs)

/-- Inversion principle for a halting loop iteration: every `halt` result
of `fuzzStep` arises from exactly one of the exit points of the loop body,
with the corresponding side conditions. -/
theorem fuzzStep_halt_inv {R : Rules} {cfg : Config} {gs : GameSetup}
    {step : Nat} {state : GameState} {d : FuzzedDataProvider} {tr : List Event}
    {r : FuzzResult} (h : fuzzStep R cfg gs step state d tr = .halt r) :
    (d.remainingBytes < 16 ∧ r = ⟨.insufficientInput, tr⟩)
  ∨ (∃ e, resolveActive R state d tr = .error e ∧ r = ⟨.jsError e, tr⟩)
  ∨ ∃ active d1 tr1, resolveActive R state d tr = .ok (active, d1, tr1) ∧
      ((cfg.MAX_STEPS < step ∧
         r = ⟨.maxSteps (log_crash gs state (R.view state active) step active none none), tr1⟩)
     ∨ (¬cfg.MAX_STEPS < step ∧ state.state = "game_over" ∧ r = ⟨.gameOver state, tr1⟩)
     ∨ (¬cfg.MAX_STEPS < step ∧ ¬state.state = "game_over" ∧
         (R.view state active).actions = none ∧
         r = ⟨.noActions (log_crash gs state (R.view state active) step active none none)
               "No actions defined", tr1⟩)
     ∨ (¬cfg.MAX_STEPS < step ∧ ¬state.state = "game_over" ∧
         ∃ acts0, (R.view state active).actions = some acts0 ∧
           ((∃ e, normalizeActions R cfg acts0 = .error e ∧ r = ⟨.jsError e, tr1⟩)
          ∨ ∃ acts3, normalizeActions R cfg acts0 = .ok acts3 ∧
              ((acts3 = [] ∧
                 r = ⟨.noActions
                       (log_crash gs state { R.view state active with actions := some acts3 }
                         step active none none)
                       "No more actions to take (besides undo)", tr1⟩)
             ∨ (¬acts3 = [] ∧
                 ((∃ e, pick d1 (acts3.map Prod.fst) = .error e ∧ r = ⟨.jsError e, tr1⟩)
                ∨ ∃ action d2, pick d1 (acts3.map Prod.fst) = .ok (action, d2) ∧
                    ((chooseArg (objGet acts3 action) d2 (tr1 ++ [Event.action action acts3]) =
                        .nanHalt ∧
                       r = ⟨.invalidArg
                             (log_crash gs state
                               { R.view state active with actions := some acts3 }
                               step active none none)
                             ("Action " ++ action ++ " argument has NaN value"),
                           tr1 ++ [Event.action action acts3]⟩)
                   ∨ (∃ e, chooseArg (objGet acts3 action) d2
                              (tr1 ++ [Event.action action acts3]) = .jsErr e ∧
                        r = ⟨.jsError e, tr1 ++ [Event.action action acts3]⟩)
                   ∨ (∃ arg d3 tr3 err,
                        chooseArg (objGet acts3 action) d2
                          (tr1 ++ [Event.action action acts3]) = .picked arg d3 tr3 ∧
                        applyResult R state active action arg = .error err ∧
                        r = ⟨.rulesCrash
                              (log_crash gs state
                                { R.view state active with actions := some acts3 }
                                step active (some action) (some arg)) err, tr3⟩)))))))) := by
  simp only [fuzzStep] at h
  split at h
  · exact Or.inl ⟨by assumption, by injection h with h2; exact h2.symm⟩
  · rename_i h16
    split at h
    · rename_i e heq
      exact Or.inr (Or.inl ⟨e, heq, by injection h with h2; exact h2.symm⟩)
    · rename_i active d1 tr1 heq
      refine Or.inr (Or.inr ⟨active, d1, tr1, heq, ?_⟩)
      split at h
      · rename_i hms
        exact Or.inl ⟨hms, by injection h with h2; exact h2.symm⟩
      · rename_i hms
        split at h
        · rename_i hgo
          exact Or.inr (Or.inl ⟨hms, hgo, by injection h with h2; exact h2.symm⟩)
        · rename_i hgo
          split at h
          · rename_i hact
            exact Or.inr (Or.inr (Or.inl
              ⟨hms, hgo, hact, by injection h with h2; exact h2.symm⟩))
          · rename_i acts0 hact
            refine Or.inr (Or.inr (Or.inr ⟨hms, hgo, acts0, hact, ?_⟩))
            split at h
            · rename_i e hnorm
              exact Or.inl ⟨e, hnorm, by injection h with h2; exact h2.symm⟩
            · rename_i acts3 hnorm
              refine Or.inr ⟨acts3, hnorm, ?_⟩
              split at h
              · rename_i hemp
                exact Or.inl ⟨List.isEmpty_iff.mp hemp,
                  by injection h with h2; exact h2.symm⟩
              · rename_i hemp
                have hne : ¬acts3 = [] := by
                  intro hx; exact hemp (List.isEmpty_iff.mpr hx)
                refine Or.inr ⟨hne, ?_⟩
                split at h
                · rename_i e hpick
                  exact Or.inl ⟨e, hpick, by injection h with h2; exact h2.symm⟩
                · rename_i action d2 hpick
                  refine Or.inr ⟨action, d2, hpick, ?_⟩
                  split at h
                  · rename_i hchoose
                    exact Or.inl ⟨hchoose, by injection h with h2; exact h2.symm⟩
                  · rename_i e hchoose
                    exact Or.inr (Or.inl
                      ⟨e, hchoose, by injection h with h2; exact h2.symm⟩)
                  · rename_i arg d3 tr3 hchoose
                    unfold applyAction at h
                    split at h
                    · rename_i err happ
                      exact Or.inr (Or.inr ⟨arg, d3, tr3, err, hchoose, happ,
                        by injection h with h2; exact h2.symm⟩)
                    · cases h

/-- Inversion principle for a continuing loop iteration: `next` arises only
from a successful action application at the end of the loop body, with the
step counter within the bound and exactly one `applied` event appended. -/
theorem fuzzStep_next_inv {R : Rules} {cfg : Config} {gs : GameSetup}
    {step : Nat} {state : GameState} {d : FuzzedDataProvider} {tr : List Event}
    {st1 : GameState} {dn : FuzzedDataProvider} {trn : List Event}
    (h : fuzzStep R cfg gs step state d tr = .next st1 dn trn) :
    ∃ active d1 tr1 acts0 acts3 action d2 arg d3 tr3,
      ¬d.remainingBytes < 16 ∧
      resolveActive R state d tr = .ok (active, d1, tr1) ∧
      ¬cfg.MAX_STEPS < step ∧ ¬state.state = "game_over" ∧
      (R.view state active).actions = some acts0 ∧
      normalizeActions R cfg acts0 = .ok acts3 ∧ ¬acts3 = [] ∧
      pick d1 (acts3.map Prod.fst) = .ok (action, d2) ∧
      chooseArg (objGet acts3 action) d2 (tr1 ++ [Event.action action acts3]) =
        .picked arg d3 tr3 ∧
      applyResult R state active action arg = .ok st1 ∧
      dn = d3 ∧ trn = tr3 ++ [Event.applied action] := by
  simp only [fuzzStep] at h
  split at h
  · cases h
  · rename_i h16
    split at h
    · cases h
    · rename_i active d1 tr1 heq
      split at h
      · cases h
      · rename_i hms
        split at h
        · cases h
        · rename_i hgo
          split at h
          · cases h
          · rename_i acts0 hact
            split at h
            · cases h
            · rename_i acts3 hnorm
              split at h
              · cases h
              · rename_i hemp
                split at h
                · cases h
                · rename_i action d2 hpick
                  split at h
                  · cases h
                  · cases h
                  · rename_i arg d3 tr3 hchoose
                    unfold applyAction at h
                    split at h
                    · cases h
                    · rename_i stx happ
                      injection h with h1 h2 h3
                      exact ⟨active, d1, tr1, acts0, acts3, action, d2, arg, d3, tr3,
                        h16, heq, hms, hgo, hact, hnorm,
                        (fun hx => hemp (List.isEmpty_iff.mpr hx)), hpick, hchoose,
                        h1 ▸ happ, h2.symm, h3.symm⟩

theorem goodActionEvents_of_iff {tr tr1 : List Event}
    (hiff : ∀ chosen acts, Event.action chosen acts ∈ tr1 ↔
      Event.action chosen acts ∈ tr)
    (h : goodActionEvents tr) : goodActionEvents tr1 :=
  fun chosen acts hm => h chosen acts ((hiff chosen acts).mp hm)

theorem goodActionEvents_append_action {tr : List Event} {action : String}
    {acts : List (String × JSVal)} (h : goodActionEvents tr)
    (h1 : action ∈ acts.map Prod.fst)
    (h2 : ∀ kv ∈ acts, deletableE kv.2 = .ok false) :
    goodActionEvents (tr ++ [Event.action action acts]) := by
  intro chosen acts2 hm
  rcases List.mem_append.mp hm with hm1 | hm1
  · exact h chosen acts2 hm1
  · have := List.mem_singleton.mp hm1
    injection this with e1 e2
    subst e1; subst e2
    exact ⟨h1, h2⟩

theorem fuzzStep_halt_facts {R : Rules} {cfg : Config} {gs : GameSetup}
    {step : Nat} {state : GameState} {d : FuzzedDataProvider} {tr : List Event}
    {r : FuzzResult} (h : fuzzStep R cfg gs step state d tr = .halt r) :
    acceptedCount r.events = acceptedCount tr ∧
    r.outcome ≠ .fuelExhausted ∧
    (∀ dp, dumpOf r.outcome = some dp → dp.step = step ∧ dp.state = state) ∧
    (∀ dp, r.outcome = .maxSteps dp → cfg.MAX_STEPS < step) ∧
    (goodActionEvents tr → goodActionEvents r.events) := by
  rcases fuzzStep_halt_inv h with
    ⟨h16, rfl⟩ | ⟨e, heq, rfl⟩ | ⟨active, d1, tr1, heq, hrest⟩
  · exact ⟨rfl, by simp, (fun dp hdp => nomatch hdp), (fun dp hdp => nomatch hdp),
      fun hg => hg⟩
  · exact ⟨rfl, by simp, (fun dp hdp => nomatch hdp), (fun dp hdp => nomatch hdp),
      fun hg => hg⟩
  · obtain ⟨hacc1, hmem1⟩ := resolveActive_ok_facts heq
    have hgood1 : goodActionEvents tr → goodActionEvents tr1 :=
      goodActionEvents_of_iff hmem1
    rcases hrest with ⟨hms, rfl⟩ | ⟨hms, hgo, rfl⟩ | ⟨hms, hgo, hact, rfl⟩ |
      ⟨hms, hgo, acts0, hact, hrest⟩
    · refine ⟨hacc1, by simp, ?_, fun dp hdp => hms, hgood1⟩
      intro dp hdp
      injection hdp with hdp
      subst hdp
      exact ⟨rfl, rfl⟩
    · exact ⟨hacc1, by simp, (fun dp hdp => nomatch hdp), (fun dp hdp => nomatch hdp),
        hgood1⟩
    · refine ⟨hacc1, by simp, ?_, (fun dp hdp => nomatch hdp), hgood1⟩
      intro dp hdp
      injection hdp with hdp
      subst hdp
      exact ⟨rfl, rfl⟩
    · rcases hrest with ⟨e, hnorm, rfl⟩ | ⟨acts3, hnorm, hrest⟩
      · exact ⟨hacc1, by simp, (fun dp hdp => nomatch hdp),
          (fun dp hdp => nomatch hdp), hgood1⟩
      rcases hrest with ⟨hemp, rfl⟩ | ⟨hne, hrest⟩
      · refine ⟨hacc1, by simp, ?_, (fun dp hdp => nomatch hdp), hgood1⟩
        intro dp hdp
        injection hdp with hdp
        subst hdp
        exact ⟨rfl, rfl⟩
      have hacts3 : ∀ kv ∈ acts3, deletableE kv.2 = .ok false :=
        fun kv hkv => (normalizeActions_mem hnorm kv hkv).2
      rcases hrest with ⟨e, hpick, rfl⟩ | ⟨action, d2, hpick, hrest⟩
      · exact ⟨hacc1, by simp, (fun dp hdp => nomatch hdp),
          (fun dp hdp => nomatch hdp), hgood1⟩
      have hmemact : action ∈ acts3.map Prod.fst := pickValue_mem hpick
      have hacc2 : acceptedCount (tr1 ++ [Event.action action acts3]) =
          acceptedCount tr := by
        simp [acceptedCount_append, acceptedCount_action, hacc1]
      have hgood2 : goodActionEvents tr →
          goodActionEvents (tr1 ++ [Event.action action acts3]) :=
        fun hg => goodActionEvents_append_action (hgood1 hg) hmemact hacts3
      rcases hrest with ⟨hchoose, rfl⟩ | ⟨e, hchoose, rfl⟩ |
        ⟨arg, d3, tr3, err, hchoose, happ, rfl⟩
      · refine ⟨hacc2, by simp, ?_, (fun dp hdp => nomatch hdp), hgood2⟩
        intro dp hdp
        injection hdp with hdp
        subst hdp
        exact ⟨rfl, rfl⟩
      · exact ⟨hacc2, by simp, (fun dp hdp => nomatch hdp),
          (fun dp hdp => nomatch hdp), hgood2⟩
      · obtain ⟨hacc3, hmem3⟩ := chooseArg_picked_facts hchoose
        refine ⟨by rw [hacc3, hacc2], by simp, ?_, (fun dp hdp => nomatch hdp),
          fun hg => goodActionEvents_of_iff hmem3 (hgood2 hg)⟩
        intro dp hdp
        injection hdp with hdp
        subst hdp
        exact ⟨rfl, rfl⟩

theorem fuzzStep_next_facts {R : Rules} {cfg : Config} {gs : GameSetup}
    {step : Nat} {state : GameState} {d : FuzzedDataProvider} {tr : List Event}
    {st1 : GameState} {dn : FuzzedDataProvider} {trn : List Event}
    (h : fuzzStep R cfg gs step state d tr = .next st1 dn trn) :
    step ≤ cfg.MAX_STEPS ∧ acceptedCount trn = acceptedCount tr + 1 ∧
    (goodActionEvents tr → goodActionEvents trn) := by
  obtain ⟨active, d1, tr1, acts0, acts3, action, d2, arg, d3, tr3, h16, heq,
    hms, hgo, hact, hnorm, hne, hpick, hchoose, happ, rfl, rfl⟩ :=
    fuzzStep_next_inv h
  obtain ⟨hacc1, hmem1⟩ := resolveActive_ok_facts heq
  obtain ⟨hacc3, hmem3⟩ := chooseArg_picked_facts hchoose
  have hacts3 : ∀ kv ∈ acts3, deletableE kv.2 = .ok false :=
    fun kv hkv => (normalizeActions_mem hnorm kv hkv).2
  have hmemact : action ∈ acts3.map Prod.fst := pickValue_mem hpick
  refine ⟨by omega, ?_, ?_⟩
  · rw [acceptedCount_append, acceptedCount_applied, hacc3,
      acceptedCount_append, acceptedCount_action, hacc1]
  · intro hg
    intro chosen acts hm
    rcases List.mem_append.mp hm with hm1 | hm1
    · have := (hmem3 chosen acts).mp hm1
      rcases List.mem_append.mp this with hm2 | hm2
      · exact hg chosen acts ((hmem1 chosen acts).mp hm2)
      · have := List.mem_singleton.mp hm2
        injection this with e1 e2
        subst e1; subst e2
        exact ⟨hmemact, hacts3⟩
    · cases List.mem_singleton.mp hm1

/-! ### Loop-level lemmas -/

theorem fuzzLoop_succ (R : Rules) (cfg : Config) (gs : GameSetup)
    (fuel step : Nat) (state : GameState) (d : FuzzedDataProvider)
    (tr : List Event) :
    fuzzLoop R cfg gs (fuel+1) step state d tr =
      match fuzzStep R cfg gs step state d tr with
      | .halt r => r
      | .next st1 d1 tr1 => fuzzLoop R cfg gs fuel (step+1) st1 d1 tr1 := rfl

theorem fuzzLoop_facts (R : Rules) (cfg : Config) (gs : GameSetup) :
    ∀ (fuel step : Nat) (state : GameState) (d : FuzzedDataProvider)
      (tr : List Event),
      step = acceptedCount tr →
      step ≤ cfg.MAX_STEPS + 1 →
      cfg.MAX_STEPS + 2 ≤ fuel + step →
      acceptedCount (fuzzLoop R cfg gs fuel step state d tr).events ≤
          cfg.MAX_STEPS + 1 ∧
      (fuzzLoop R cfg gs fuel step state d tr).outcome ≠ .fuelExhausted ∧
      (∀ dp, dumpOf (fuzzLoop R cfg gs fuel step state d tr).outcome = some dp →
        dp.step = acceptedCount (fuzzLoop R cfg gs fuel step state d tr).events) ∧
      (∀ dp, (fuzzLoop R cfg gs fuel step state d tr).outcome = .maxSteps dp →
        dp.step = cfg.MAX_STEPS + 1) := by
  intro fuel
  induction fuel with
  | zero => intro step state d tr h1 h2 h3; omega
  | succ fuel ih =>
    intro step state d tr h1 h2 h3
    cases hstep : fuzzStep R cfg gs step state d tr with
    | halt r =>
      simp only [fuzzLoop_succ, hstep]
      obtain ⟨hacc, hfe, hdump, hmax, _⟩ := fuzzStep_halt_facts hstep
      refine ⟨by omega, hfe, ?_, ?_⟩
      · intro dp hdp
        obtain ⟨hs, _⟩ := hdump dp hdp
        omega
      · intro dp hdp
        obtain ⟨hs, _⟩ := hdump dp (by rw [hdp]; rfl)
        have := hmax dp hdp
        omega
    | next st1 d1 tr1 =>
      simp only [fuzzLoop_succ, hstep]
      obtain ⟨hle, hacc, _⟩ := fuzzStep_next_facts hstep
      exact ih (step+1) st1 d1 tr1 (by omega) (by omega) (by omega)

theorem fuzzLoop_good (R : Rules) (cfg : Config) (gs : GameSetup) :
    ∀ (fuel step : Nat) (state : GameState) (d : FuzzedDataProvider)
      (tr : List Event), goodActionEvents tr →
      goodActionEvents (fuzzLoop R cfg gs fuel step state d tr).events := by
  intro fuel
  induction fuel with
  | zero => intro step state d tr hg; exact hg
  | succ fuel ih =>
    intro step state d tr hg
    cases hstep : fuzzStep R cfg gs step state d tr with
    | halt r =>
      simp only [fuzzLoop_succ, hstep]
      exact (fuzzStep_halt_facts hstep).2.2.2.2 hg
    | next st1 d1 tr1 =>
      simp only [fuzzLoop_succ, hstep]
      exact ih (step+1) st1 d1 tr1 ((fuzzStep_next_facts hstep).2.2 hg)

theorem fuzzStep_halt_dumpView {R : Rules} {cfg : Config} {gs : GameSetup}
    {step : Nat} {state : GameState} {d : FuzzedDataProvider} {tr : List Event}
    {r : FuzzResult} (h : fuzzStep R cfg gs step state d tr = .halt r) :
    ∀ dp, dumpOf r.outcome = some dp → dumpViewNormalized R cfg dp := by
  rcases fuzzStep_halt_inv h with
    ⟨h16, rfl⟩ | ⟨e, heq, rfl⟩ | ⟨active, d1, tr1, heq, hrest⟩
  · exact fun dp hdp => nomatch hdp
  · exact fun dp hdp => nomatch hdp
  rcases hrest with ⟨hms, rfl⟩ | ⟨hms, hgo, rfl⟩ | ⟨hms, hgo, hact, rfl⟩ |
    ⟨hms, hgo, acts0, hact, hrest⟩
  · intro dp hdp
    injection hdp with hdp
    subst hdp
    exact Or.inl rfl
  · exact fun dp hdp => nomatch hdp
  · intro dp hdp
    injection hdp with hdp
    subst hdp
    exact Or.inl rfl
  rcases hrest with ⟨e, hnorm, rfl⟩ | ⟨acts3, hnorm, hrest⟩
  · exact fun dp hdp => nomatch hdp
  rcases hrest with ⟨hemp, rfl⟩ | ⟨hne, hrest⟩
  · intro dp hdp
    injection hdp with hdp
    subst hdp
    exact Or.inr ⟨acts0, acts3, hact, hnorm, rfl⟩
  rcases hrest with ⟨e, hpick, rfl⟩ | ⟨action, d2, hpick, hrest⟩
  · exact fun dp hdp => nomatch hdp
  rcases hrest with ⟨hchoose, rfl⟩ | ⟨e, hchoose, rfl⟩ |
    ⟨arg, d3, tr3, err, hchoose, happ, rfl⟩
  · intro dp hdp
    injection hdp with hdp
    subst hdp
    exact Or.inr ⟨acts0, acts3, hact, hnorm, rfl⟩
  · exact fun dp hdp => nomatch hdp
  · intro dp hdp
    injection hdp with hdp
    subst hdp
    exact Or.inr ⟨acts0, acts3, hact, hnorm, rfl⟩

theorem fuzzStep_halt_resign {R : Rules} {cfg : Config} {gs : GameSetup}
    {step : Nat} {state : GameState} {d : FuzzedDataProvider} {tr : List Event}
    {r : FuzzResult} (hres : R.resign.isSome) (hnr : cfg.NO_RESIGN = false)
    (h : fuzzStep R cfg gs step state d tr = .halt r) :
    ∀ dp, r.outcome ≠ .noActions dp "No more actions to take (besides undo)" := by
  rcases fuzzStep_halt_inv h with
    ⟨h16, rfl⟩ | ⟨e, heq, rfl⟩ | ⟨active, d1, tr1, heq, hrest⟩
  · exact fun dp hx => nomatch hx
  · exact fun dp hx => nomatch hx
  rcases hrest with ⟨hms, rfl⟩ | ⟨hms, hgo, rfl⟩ | ⟨hms, hgo, hact, rfl⟩ |
    ⟨hms, hgo, acts0, hact, hrest⟩
  · exact fun dp hx => nomatch hx
  · exact fun dp hx => nomatch hx
  · intro dp hx
    injection hx with h1 h2
    exact absurd h2 (by decide)
  rcases hrest with ⟨e, hnorm, rfl⟩ | ⟨acts3, hnorm, hrest⟩
  · exact fun dp hx => nomatch hx
  rcases hrest with ⟨hemp, rfl⟩ | ⟨hne, hrest⟩
  · intro dp hx
    have hmem := normalizeActions_resign_mem hres hnr hnorm
    rw [hemp] at hmem
    cases hmem
  rcases hrest with ⟨e, hpick, rfl⟩ | ⟨action, d2, hpick, hrest⟩
  · exact fun dp hx => nomatch hx
  rcases hrest with ⟨hchoose, rfl⟩ | ⟨e, hchoose, rfl⟩ |
    ⟨arg, d3, tr3, err, hchoose, happ, rfl⟩
  · exact fun dp hx => nomatch hx
  · exact fun dp hx => nomatch hx
  · exact fun dp hx => nomatch hx

theorem fuzzStep_halt_classified {R : Rules} {cfg : Config} {gs : GameSetup}
    {step : Nat} {state : GameState} {d : FuzzedDataProvider} {tr : List Event}
    {r : FuzzResult} (hroles : R.roles ≠ [])
    (hdesc : ∀ s rl acts kv, (R.view s rl).actions = some acts → kv ∈ acts →
      kv.2 ≠ .prim .null ∧ kv.2 ≠ .prim .undefined ∧ ∀ fs, kv.2 ≠ .obj fs)
    (h : fuzzStep R cfg gs step state d tr = .halt r) :
    ∀ e, r.outcome ≠ .jsError e := by
  rcases fuzzStep_halt_inv h with
    ⟨h16, rfl⟩ | ⟨e, heq, rfl⟩ | ⟨active, d1, tr1, heq, hrest⟩
  · exact fun e hx => nomatch hx
  · exact absurd heq (resolveActive_ne_error hroles state d tr e)
  rcases hrest with ⟨hms, rfl⟩ | ⟨hms, hgo, rfl⟩ | ⟨hms, hgo, hact, rfl⟩ |
    ⟨hms, hgo, acts0, hact, hrest⟩
  · exact fun e hx => nomatch hx
  · exact fun e hx => nomatch hx
  · exact fun e hx => nomatch hx
  rcases hrest with ⟨e, hnorm, rfl⟩ | ⟨acts3, hnorm, hrest⟩
  · obtain ⟨res, hok⟩ := normalizeActions_isOk
      (fun kv hkv => ⟨(hdesc state active acts0 kv hact hkv).1,
        (hdesc state active acts0 kv hact hkv).2.1⟩)
    rw [hok] at hnorm
    cases hnorm
  rcases hrest with ⟨hemp, rfl⟩ | ⟨hne, hrest⟩
  · exact fun e hx => nomatch hx
  rcases hrest with ⟨e, hpick, rfl⟩ | ⟨action, d2, hpick, hrest⟩
  · have hkeys : acts3.map Prod.fst ≠ [] :=
      fun hx => hne (List.map_eq_nil_iff.mp hx)
    exact absurd hpick (pickValue_ne_error d1 hkeys e)
  rcases hrest with ⟨hchoose, rfl⟩ | ⟨e, hchoose, rfl⟩ |
    ⟨arg, d3, tr3, err, hchoose, happ, rfl⟩
  · exact fun e hx => nomatch hx
  · rcases objGet_cases acts3 action with hv | ⟨kk, hkv⟩
    · rw [hv] at hchoose
      cases hchoose
    · obtain ⟨horig, hdel⟩ := normalizeActions_mem hnorm _ hkv
      have hobj : ∀ fs, objGet acts3 action ≠ .obj fs := by
        rcases horig with hm | hm
        · exact (hdesc state active acts0 _ hact hm).2.2
        · intro fs
          injection hm with hm1 hm2
          rw [show objGet acts3 action = JSVal.prim (.num 1) from hm2]
          exact fun hx => nomatch hx
      exact absurd hchoose (chooseArg_ne_jsErr hobj hdel e)
  · exact fun e hx => nomatch hx


theorem fuzzLoop_dumpView (R : Rules) (cfg : Config) (gs : GameSetup) :
    ∀ (fuel step : Nat) (state : GameState) (d : FuzzedDataProvider)
      (tr : List Event) (dp : CrashDump),
      dumpOf (fuzzLoop R cfg gs fuel step state d tr).outcome = some dp →
      dumpViewNormalized R cfg dp := by
  intro fuel
  induction fuel with
  | zero => exact fun step state d tr dp hdp => nomatch hdp
  | succ fuel ih =>
    intro step state d tr dp
    cases hstep : fuzzStep R cfg gs step state d tr with
    | halt r =>
      simp only [fuzzLoop_succ, hstep]
      exact fuzzStep_halt_dumpView hstep dp
    | next st1 d1 tr1 =>
      simp only [fuzzLoop_succ, hstep]
      exact ih (step+1) st1 d1 tr1 dp

theorem fuzzLoop_resign (R : Rules) (cfg : Config) (gs : GameSetup)
    (hres : R.resign.isSome) (hnr : cfg.NO_RESIGN = false) :
    ∀ (fuel step : Nat) (state : GameState) (d : FuzzedDataProvider)
      (tr : List Event) (dp : CrashDump),
      (fuzzLoop R cfg gs fuel step state d tr).outcome ≠
        .noActions dp "No more actions to take (besides undo)" := by
  intro fuel
  induction fuel with
  | zero => exact fun step state d tr dp hx => nomatch hx
  | succ fuel ih =>
    intro step state d tr dp
    cases hstep : fuzzStep R cfg gs step state d tr with
    | halt r =>
      simp only [fuzzLoop_succ, hstep]
      exact fuzzStep_halt_resign hres hnr hstep dp
    | next st1 d1 tr1 =>
      simp only [fuzzLoop_succ, hstep]
      exact ih (step+1) st1 d1 tr1 dp

theorem fuzzLoop_classified (R : Rules) (cfg : Config) (gs : GameSetup)
    (hroles : R.roles ≠ [])
    (hdesc : ∀ s rl acts kv, (R.view s rl).actions = some acts → kv ∈ acts →
      kv.2 ≠ .prim .null ∧ kv.2 ≠ .prim .undefined ∧ ∀ fs, kv.2 ≠ .obj fs) :
    ∀ (fuel step : Nat) (state : GameState) (d : FuzzedDataProvider)
      (tr : List Event) (e : String),
      (fuzzLoop R cfg gs fuel step state d tr).outcome ≠ .jsError e := by
  intro fuel
  induction fuel with
  | zero => exact fun step state d tr e hx => nomatch hx
  | succ fuel ih =>
    intro step state d tr e
    cases hstep : fuzzStep R cfg gs step state d tr with
    | halt r =>
      simp only [fuzzLoop_succ, hstep]
      exact fuzzStep_halt_classified hroles hdesc hstep e
    | next st1 d1 tr1 =>
      simp only [fuzzLoop_succ, hstep]
      exact ih (step+1) st1 d1 tr1 e

/-! ### Run-level lemmas -/

theorem fuzz_facts (R : Rules) (cfg : Config) (input : List Nat) :
    acceptedCount (fuzz R cfg input).events ≤ cfg.MAX_STEPS + 1 ∧
    (fuzz R cfg input).outcome ≠ .fuelExhausted ∧
    (∀ dp, dumpOf (fuzz R cfg input).outcome = some dp →
      dp.step = acceptedCount (fuzz R cfg input).events) ∧
    (∀ dp, (fuzz R cfg input).outcome = .maxSteps dp →
      dp.step = cfg.MAX_STEPS + 1) := by
  simp only [fuzz]
  split
  · exact ⟨by simp [acceptedCount], by simp, (fun dp hdp => nomatch hdp),
      (fun dp hdp => nomatch hdp)⟩
  · split
    · exact ⟨by simp [acceptedCount, isApplied], by simp,
        (fun dp hdp => nomatch hdp), (fun dp hdp => nomatch hdp)⟩
    · rename_i scen d2 hp
      exact fuzzLoop_facts R cfg _ (cfg.MAX_STEPS + 2) 0 _ _ _ rfl (by omega)
        (by omega)

theorem fuzz_good (R : Rules) (cfg : Config) (input : List Nat) :
    goodActionEvents (fuzz R cfg input).events := by
  simp only [fuzz]
  split
  · exact fun chosen acts hm => nomatch hm
  · split
    · intro chosen acts hm
      rcases List.mem_singleton.mp hm with h
      cases h
    · apply fuzzLoop_good
      intro chosen acts hm
      rcases List.mem_append.mp hm with h1 | h1
      · cases List.mem_singleton.mp h1
      · cases List.mem_singleton.mp h1

theorem fuzz_dumpView (R : Rules) (cfg : Config) (input : List Nat)
    (dp : CrashDump) (hdp : dumpOf (fuzz R cfg input).outcome = some dp) :
    dumpViewNormalized R cfg dp := by
  revert hdp
  simp only [fuzz]
  split
  · exact fun hdp => nomatch hdp
  · split
    · exact fun hdp => nomatch hdp
    · apply fuzzLoop_dumpView

theorem fuzz_resign (R : Rules) (cfg : Config) (input : List Nat)
    (hres : R.resign.isSome) (hnr : cfg.NO_RESIGN = false) (dp : CrashDump) :
    (fuzz R cfg input).outcome ≠
      .noActions dp "No more actions to take (besides undo)" := by
  simp only [fuzz]
  split
  · exact fun hx => nomatch hx
  · split
    · exact fun hx => nomatch hx
    · apply fuzzLoop_resign R cfg _ hres hnr

theorem fuzz_classified (R : Rules) (cfg : Config) (input : List Nat)
    (hsc : R.scenarios ≠ []) (hroles : R.roles ≠ [])
    (hdesc : ∀ s rl acts kv, (R.view s rl).actions = some acts → kv ∈ acts →
      kv.2 ≠ .prim .null ∧ kv.2 ≠ .prim .undefined ∧ ∀ fs, kv.2 ≠ .obj fs)
    (e : String) : (fuzz R cfg input).outcome ≠ .jsError e := by
  simp only [fuzz]
  split
  · exact fun hx => nomatch hx
  · split
    · rename_i e2 hp
      exact absurd hp (pickValue_ne_error _ hsc e2)
    · apply fuzzLoop_classified R cfg _ hroles hdesc


theorem fuzzStep_halt_rulesCrash {R : Rules} {cfg : Config} {gs : GameSetup}
    {step : Nat} {state : GameState} {d : FuzzedDataProvider} {tr : List Event}
    {r : FuzzResult} (h : fuzzStep R cfg gs step state d tr = .halt r) :
    ∀ dp err, r.outcome = .rulesCrash dp err →
      ∃ action arg, dp.action = some action ∧ dp.args = some arg ∧
        applyResult R dp.state dp.active action arg = .error err := by
  rcases fuzzStep_halt_inv h with
    ⟨h16, rfl⟩ | ⟨e, heq, rfl⟩ | ⟨active, d1, tr1, heq, hrest⟩
  · exact fun dp err hx => nomatch hx
  · exact fun dp err hx => nomatch hx
  rcases hrest with ⟨hms, rfl⟩ | ⟨hms, hgo, rfl⟩ | ⟨hms, hgo, hact, rfl⟩ |
    ⟨hms, hgo, acts0, hact, hrest⟩
  · exact fun dp err hx => nomatch hx
  · exact fun dp err hx => nomatch hx
  · exact fun dp err hx => nomatch hx
  rcases hrest with ⟨e, hnorm, rfl⟩ | ⟨acts3, hnorm, hrest⟩
  · exact fun dp err hx => nomatch hx
  rcases hrest with ⟨hemp, rfl⟩ | ⟨hne, hrest⟩
  · exact fun dp err hx => nomatch hx
  rcases hrest with ⟨e, hpick, rfl⟩ | ⟨action, d2, hpick, hrest⟩
  · exact fun dp err hx => nomatch hx
  rcases hrest with ⟨hchoose, rfl⟩ | ⟨e, hchoose, rfl⟩ |
    ⟨arg, d3, tr3, err0, hchoose, happ, rfl⟩
  · exact fun dp err hx => nomatch hx
  · exact fun dp err hx => nomatch hx
  · intro dp err hx
    injection hx with h1 h2
    subst h1; subst h2
    exact ⟨action, arg, rfl, rfl, happ⟩

theorem fuzzLoop_rulesCrash (R : Rules) (cfg : Config) (gs : GameSetup) :
    ∀ (fuel step : Nat) (state : GameState) (d : FuzzedDataProvider)
      (tr : List Event) (dp : CrashDump) (err : String),
      (fuzzLoop R cfg gs fuel step state d tr).outcome = .rulesCrash dp err →
      ∃ action arg, dp.action = some action ∧ dp.args = some arg ∧
        applyResult R dp.state dp.active action arg = .error err := by
  intro fuel
  induction fuel with
  | zero => exact fun step state d tr dp err hx => nomatch hx
  | succ fuel ih =>
    intro step state d tr dp err
    cases hstep : fuzzStep R cfg gs step state d tr with
    | halt r =>
      simp only [fuzzLoop_succ, hstep]
      exact fuzzStep_halt_rulesCrash hstep dp err
    | next st1 d1 tr1 =>
      simp only [fuzzLoop_succ, hstep]
      exact ih (step+1) st1 d1 tr1 dp err

theorem fuzz_rulesCrash (R : Rules) (cfg : Config) (input : List Nat)
    (dp : CrashDump) (err : String)
    (h : (fuzz R cfg input).outcome = .rulesCrash dp err) :
    ∃ action arg, dp.action = some action ∧ dp.args = some arg ∧
      applyResult R dp.state dp.active action arg = .error err := by
  revert h
  simp only [fuzz]
  split
  · exact fun hx => nomatch hx
  · split
    · exact fun hx => nomatch hx
    · apply fuzzLoop_rulesCrash

theorem consumeIntegralInRange_snd (d : FuzzedDataProvider) (lo hi : Int)
    (hle : lo ≤ hi) :
    (consumeIntegralInRange d lo hi).2 =
      ⟨d.bytes.drop (byteWidth ((hi - lo).toNat + 1))⟩ := by
  unfold consumeIntegralInRange
  rw [if_neg (by omega)]

theorem pickValue_bytes {α : Type} [Inhabited α] {d : FuzzedDataProvider}
    {xs : List α} {a : α} {d1 : FuzzedDataProvider}
    (h : pickValue d xs = .ok (a, d1)) :
    d1.bytes = d.bytes.drop (byteWidth xs.length) := by
  unfold pickValue at h
  by_cases he : xs.isEmpty
  · rw [if_pos he] at h; cases h
  · rw [if_neg he] at h
    have hlen : 0 < xs.length :=
      List.length_pos.mpr (by simpa [List.isEmpty_iff] using he)
    injection h with h
    injection h with h1 h2
    rw [← h2, consumeIntegralInRange_snd d 0 _ (by omega)]
    rw [show (((xs.length : Int) - 1) - 0).toNat + 1 = xs.length by omega]


/-- Once the step counter has exceeded the bound, a halting iteration can
only be the insufficient-input exit, a role-resolution escape, or the
BoundExceeded throw with the counter's current value: every other exit of
the loop body sits behind the bound check of line 69. -/
theorem fuzzStep_halt_over {R : Rules} {cfg : Config} {gs : GameSetup}
    {step : Nat} {state : GameState} {d : FuzzedDataProvider} {tr : List Event}
    {r : FuzzResult} (h : fuzzStep R cfg gs step state d tr = .halt r)
    (hover : cfg.MAX_STEPS < step) :
    r.outcome = .insufficientInput ∨ (∃ e, r.outcome = .jsError e) ∨
    ∃ dp, r.outcome = .maxSteps dp ∧ dp.step = step := by
  rcases fuzzStep_halt_inv h with
    ⟨h16, rfl⟩ | ⟨e, heq, rfl⟩ | ⟨active, d1, tr1, heq, hrest⟩
  · exact Or.inl rfl
  · exact Or.inr (Or.inl ⟨e, rfl⟩)
  rcases hrest with ⟨hms, rfl⟩ | ⟨hms, hgo, rfl⟩ | ⟨hms, hgo, hact, rfl⟩ |
    ⟨hms, hgo, acts0, hact, hrest⟩
  · exact Or.inr (Or.inr ⟨_, rfl, rfl⟩)
  · exact absurd hover hms
  · exact absurd hover hms
  · exact absurd hover hms

theorem fuzzLoop_over (R : Rules) (cfg : Config) (gs : GameSetup) :
    ∀ (fuel step : Nat) (state : GameState) (d : FuzzedDataProvider)
      (tr : List Event),
      step = acceptedCount tr →
      step ≤ cfg.MAX_STEPS + 1 →
      cfg.MAX_STEPS + 2 ≤ fuel + step →
      acceptedCount (fuzzLoop R cfg gs fuel step state d tr).events =
        cfg.MAX_STEPS + 1 →
      (fuzzLoop R cfg gs fuel step state d tr).outcome = .insufficientInput ∨
      (∃ e, (fuzzLoop R cfg gs fuel step state d tr).outcome = .jsError e) ∨
      ∃ dp, (fuzzLoop R cfg gs fuel step state d tr).outcome = .maxSteps dp ∧
        dp.step = cfg.MAX_STEPS + 1 := by
  intro fuel
  induction fuel with
  | zero => intro step state d tr h1 h2 h3; omega
  | succ fuel ih =>
    intro step state d tr h1 h2 h3
    cases hstep : fuzzStep R cfg gs step state d tr with
    | halt r =>
      simp only [fuzzLoop_succ, hstep]
      intro hcount
      have hacc := (fuzzStep_halt_facts hstep).1
      have hstepval : step = cfg.MAX_STEPS + 1 := by omega
      rcases fuzzStep_halt_over hstep (by omega) with ho | ⟨e, ho⟩ | ⟨dp, ho, hs⟩
      · exact Or.inl ho
      · exact Or.inr (Or.inl ⟨e, ho⟩)
      · exact Or.inr (Or.inr ⟨dp, ho, by omega⟩)
    | next st1 d1 tr1 =>
      simp only [fuzzLoop_succ, hstep]
      obtain ⟨hle, hacc, _⟩ := fuzzStep_next_facts hstep
      exact ih (step+1) st1 d1 tr1 (by omega) (by omega) (by omega)

/-- The positive direction of the step bound: whenever a run has accepted
MAX_STEPS + 1 actions (the counter has exceeded the configured maximum),
the run ends with BoundExceeded — unless the input ran out first (the
insufficient-input proviso) or role resolution escaped unclassified. -/
theorem fuzz_over (R : Rules) (cfg : Config) (input : List Nat)
    (hcount : acceptedCount (fuzz R cfg input).events = cfg.MAX_STEPS + 1) :
    (fuzz R cfg input).outcome = .insufficientInput ∨
    (∃ e, (fuzz R cfg input).outcome = .jsError e) ∨
    ∃ dp, (fuzz R cfg input).outcome = .maxSteps dp ∧
      dp.step = cfg.MAX_STEPS + 1 := by
  revert hcount
  simp only [fuzz]
  split
  · exact fun hcount => Or.inl rfl
  · split
    · exact fun hcount => Or.inr (Or.inl ⟨_, rfl⟩)
    · exact fuzzLoop_over R cfg _ (cfg.MAX_STEPS + 2) 0 _ _ _ rfl (by omega)
        (by omega)

/-! ### The claims -/

/-- C1: for every byte buffer of at least the minimum-bytes threshold,
running fuzz in deterministic mode (RND false) twice with the same buffer
and the same rules engine produces the identical decision sequence (seed,
scenario, role resolutions, action picks, argument picks) and the identical
final state or identical error classification: the run is a pure function
of the buffer and the engine. -/
theorem claim_C1 (R1 R2 : Rules) (cfg : Config) (buf1 buf2 : List Nat)
    (hR : R1 = R2) (hbuf : buf1 = buf2) (hlen : 16 ≤ buf1.length) :
    fuzz R1 cfg buf1 = fuzz R2 cfg buf2 := by
  subst hR; subst hbuf; rfl

theorem claim_C1_witness :
    16 ≤ bufW.length ∧ fuzz okEngine cfgI bufW = fuzz okEngine cfgI bufW :=
  ⟨by decide, claim_C1 okEngine okEngine cfgI bufW bufW rfl rfl (by decide)⟩

/-- C2: for every buffer shorter than 16 bytes, fuzz in deterministic mode
returns the insufficient-input sentinel before drawing any decision (the
decision sequence is empty), and no crash artifact is written. -/
theorem claim_C2 (R : Rules) (cfg : Config) (input : List Nat)
    (hshort : input.length < 16) :
    fuzz R cfg input = ⟨.insufficientInput, []⟩ ∧
    artifactWritten (fuzz R cfg input).outcome = false := by
  have h : fuzz R cfg input = ⟨.insufficientInput, []⟩ := by
    simp only [fuzz]
    rw [if_pos
      (show (FuzzedDataProvider.mk input).remainingBytes < 16 from hshort)]
  exact ⟨h, by rw [h]; rfl⟩

theorem claim_C2_witness :
    (List.replicate 15 0).length < 16 ∧
    fuzz okEngine cfgI (List.replicate 15 0) = ⟨.insufficientInput, []⟩ ∧
    artifactWritten (fuzz okEngine cfgI (List.replicate 15 0)).outcome = false := by
  have h := claim_C2 okEngine cfgI (List.replicate 15 0) (by decide)
  exact ⟨by decide, h.1, h.2⟩

/-- C3 counterexample: the claim fails as stated.  A rules engine whose
view carries a `null` action descriptor makes the disabled-action filter
(line 95) read `.length` of `null`; the resulting TypeError escapes the
driver unclassified (it is none of the four error kinds) and without any
diagnostic dump. -/
theorem claim_C3_counterexample :
    ¬ classifiedOutcome (fuzz nullEngine cfgI bufW).outcome := by decide

/-- C3 amended: provided the engine has a nonempty scenario list and a
nonempty role list and no view ever carries a `null`, `undefined` or plain
object action descriptor, every fatal failure fuzz propagates is one of the
four classified kinds, each carrying the diagnostic dump produced
immediately before the throw; nothing escapes unclassified. -/
theorem claim_C3 (R : Rules) (cfg : Config) (input : List Nat)
    (hsc : R.scenarios ≠ []) (hroles : R.roles ≠ [])
    (hdesc : ∀ s rl acts kv, (R.view s rl).actions = some acts → kv ∈ acts →
      kv.2 ≠ .prim .null ∧ kv.2 ≠ .prim .undefined ∧ ∀ fs, kv.2 ≠ .obj fs) :
    classifiedOutcome (fuzz R cfg input).outcome := by
  cases ho : (fuzz R cfg input).outcome
  case jsError e => exact absurd ho (fuzz_classified R cfg input hsc hroles hdesc e)
  case fuelExhausted => exact absurd ho (fuzz_facts R cfg input).2.1
  all_goals exact trivial

theorem claim_C3_witness :
    okEngine.scenarios ≠ [] ∧ okEngine.roles ≠ [] ∧
    classifiedOutcome (fuzz okEngine cfgI bufW).outcome :=
  ⟨by decide, by decide,
    claim_C3 okEngine cfgI bufW (by decide) (by decide)
      (fun s rl acts kv h1 h2 => by
        injection h1 with h1
        subst h1
        rcases List.mem_singleton.mp h2 with rfl
        exact ⟨by decide, by decide, fun fs hx => nomatch hx⟩)⟩

/-- C4: the claim describes the intended behaviour, but the code iterates
the pool KEYS (`for (const arg in args)`, line 110), not its values, so a
pool that is exactly `[NaN]` has the single key `"0"`, `isNaN("0")` is
false, no `InvalidActionArgument` is raised, and the NaN value itself is
picked as the argument: the run completes normally with the NaN argument
applied and no crash artifact. -/
theorem claim_C4_bug :
    (fuzz nanEngine cfgI bufW).outcome = .gameOver ⟨"A", "game_over", 1⟩ ∧
    Event.arg (.prim .nan) [.prim .nan] ∈ (fuzz nanEngine cfgI bufW).events ∧
    artifactWritten (fuzz nanEngine cfgI bufW).outcome = false := by decide

/-- C5: the step counter starts at 0 and increases by exactly one per
accepted action and only then: every diagnostic dump records a step equal
to the number of accepted actions in the decision sequence; a BoundExceeded
dump records exactly MAX_STEPS + 1, the first value exceeding the
configured maximum; no run ever accepts more than MAX_STEPS + 1 actions;
and conversely, whenever the counter exceeds the configured maximum
(MAX_STEPS + 1 actions were accepted) the run does halt raising
BoundExceeded — the only other possible ends are the insufficient-input
exit (the claim assumes sufficient remaining input each turn) and an
unclassified role-resolution escape, every other exit of the loop body
being behind the bound check. -/
theorem claim_C5 (R : Rules) (cfg : Config) (input : List Nat) :
    (∀ dp, dumpOf (fuzz R cfg input).outcome = some dp →
      dp.step = acceptedCount (fuzz R cfg input).events) ∧
    (∀ dp, (fuzz R cfg input).outcome = .maxSteps dp →
      dp.step = cfg.MAX_STEPS + 1) ∧
    acceptedCount (fuzz R cfg input).events ≤ cfg.MAX_STEPS + 1 ∧
    (acceptedCount (fuzz R cfg input).events = cfg.MAX_STEPS + 1 →
      (fuzz R cfg input).outcome = .insufficientInput ∨
      (∃ e, (fuzz R cfg input).outcome = .jsError e) ∨
      ∃ dp, (fuzz R cfg input).outcome = .maxSteps dp ∧
        dp.step = cfg.MAX_STEPS + 1) :=
  ⟨(fuzz_facts R cfg input).2.2.1, (fuzz_facts R cfg input).2.2.2,
   (fuzz_facts R cfg input).1, fuzz_over R cfg input⟩

theorem claim_C5_witness :
    (dumpOf (fuzz crash3Engine cfgI bufW).outcome = some dumpBoom ∧
     dumpBoom.step = acceptedCount (fuzz crash3Engine cfgI bufW).events) ∧
    ((fuzz loopEngine cfgI bufW).outcome = .maxSteps dumpLoop ∧
     acceptedCount (fuzz loopEngine cfgI bufW).events = cfgI.MAX_STEPS + 1 ∧
     dumpLoop.step = cfgI.MAX_STEPS + 1) :=
  ⟨⟨by decide, (claim_C5 crash3Engine cfgI bufW).1 dumpBoom (by decide)⟩,
   ⟨by decide, by decide,
    (claim_C5 loopEngine cfgI bufW).2.1 dumpLoop (by decide)⟩⟩

/-- C6: normalization removes every action whose descriptor is exactly
`false`, exactly `0`, or an empty sequence (empty array or empty string),
and the action picked on each step is a member of the post-normalization
set, which contains no disabled action. -/
theorem claim_C6 (R : Rules) (cfg : Config) (input : List Nat) :
    (∀ l res, filterActions l = .ok res → ∀ kv, kv ∈ l →
      (kv.2 = .prim (.bool false) ∨ kv.2 = .prim (.num 0) ∨ kv.2 = .arr [] ∨
        kv.2 = .prim (.str "")) → kv ∉ res) ∧
    (∀ chosen acts, Event.action chosen acts ∈ (fuzz R cfg input).events →
      chosen ∈ acts.map Prod.fst ∧ ∀ kv ∈ acts,
        kv.2 ≠ .prim (.bool false) ∧ kv.2 ≠ .prim (.num 0) ∧
        kv.2 ≠ .arr [] ∧ kv.2 ≠ .prim (.str "")) := by
  constructor
  · intro l res hok kv hmem hshape hres
    have hd := ((filterActions_mem hok kv).mp hres).2
    rcases hshape with h | h | h | h <;> rw [h] at hd <;> exact absurd hd (by decide)
  · intro chosen acts hm
    obtain ⟨h1, h2⟩ := fuzz_good R cfg input chosen acts hm
    exact ⟨h1, fun kv hkv => deletableE_not_disabled (h2 kv hkv)⟩

theorem claim_C6_witness :
    Event.action "go" [("go", JSVal.prim (.num 1))] ∈
      (fuzz okEngine cfgI bufW).events ∧
    "go" ∈ ([("go", JSVal.prim (.num 1))].map Prod.fst) :=
  ⟨by decide,
    ((claim_C6 okEngine cfgI bufW).2 "go" [("go", JSVal.prim (.num 1))]
      (by decide)).1⟩

/-- C7 counterexample: the claim fails as stated.  The source aliases the
working action set to the view (`let actions = view.actions`, line 83), so
normalization mutates the view in place: for `resignEngine` the failing
step dumps a view whose actions mapping is the normalized set (with the
injected `_resign`), not the raw empty mapping the engine returned. -/
theorem claim_C7_counterexample :
    ¬ (∀ dp, dumpOf (fuzz resignEngine cfgI bufW).outcome = some dp →
        dp.view = resignEngine.view dp.state dp.active) := by
  intro hclaim
  exact absurd (hclaim dumpResign (by decide)) (by decide)

/-- C7 amended: normalization is applied to the view\u2019s actions mapping in
place, so every diagnostic dump records either the engine-returned view
verbatim (failures before normalization) or that view with its actions
mapping replaced by the normalized set. -/
theorem claim_C7 (R : Rules) (cfg : Config) (input : List Nat) (dp : CrashDump)
    (hdp : dumpOf (fuzz R cfg input).outcome = some dp) :
    dumpViewNormalized R cfg dp :=
  fuzz_dumpView R cfg input dp hdp

theorem claim_C7_witness :
    dumpOf (fuzz resignEngine cfgI bufW).outcome = some dumpResign ∧
    dumpViewNormalized resignEngine cfgI dumpResign :=
  ⟨by decide, claim_C7 resignEngine cfgI bufW dumpResign (by decide)⟩

/-- C8: when the rules engine\u2019s action application raises an error on the
third applied action (exactly two actions were accepted before the crash),
the run halts with a RulesEngineFailure wrapping that error, the dump
records the step counter frozen at 2, and the persisted snapshot is the
pre-failure state: the dumped action applied to the dumped state and role
is exactly the application that failed, so the state was not replaced. -/
theorem claim_C8 (R : Rules) (cfg : Config) (input : List Nat) (dp : CrashDump)
    (err : String) (hcrash : (fuzz R cfg input).outcome = .rulesCrash dp err)
    (hthird : acceptedCount (fuzz R cfg input).events = 2) :
    dp.step = 2 ∧ ∃ action arg, dp.action = some action ∧ dp.args = some arg ∧
      applyResult R dp.state dp.active action arg = .error err := by
  constructor
  · have := (fuzz_facts R cfg input).2.2.1 dp (by rw [hcrash]; rfl)
    omega
  · exact fuzz_rulesCrash R cfg input dp err hcrash

theorem claim_C8_witness :
    (fuzz crash3Engine cfgI bufW).outcome = .rulesCrash dumpBoom "boom" ∧
    acceptedCount (fuzz crash3Engine cfgI bufW).events = 2 ∧
    dumpBoom.step = 2 ∧ dumpBoom.state = ⟨"A", "run", 2⟩ := by
  have h := claim_C8 crash3Engine cfgI bufW dumpBoom "boom" (by decide) (by decide)
  exact ⟨by decide, by decide, h.1, by decide⟩

/-- C9: for a rules engine whose setup always returns a state whose state
field is "game_over", with nonempty scenario and role lists, and a buffer
long enough that at least 16 bytes remain at loop entry, fuzz recognizes
game-over on step 0 and returns normally: the outcome is the game-over
success, no action is applied, and no crash artifact is written. -/
theorem claim_C9 (R : Rules) (cfg : Config) (input : List Nat)
    (hsetup : ∀ seed scen, (R.setup seed scen).state = "game_over")
    (hsc : R.scenarios ≠ []) (hroles : R.roles ≠ [])
    (hlen : byteWidth (2 ^ 35 - 31) + byteWidth R.scenarios.length + 16 ≤
      input.length) :
    (∃ fs, (fuzz R cfg input).outcome = .gameOver fs) ∧
    artifactWritten (fuzz R cfg input).outcome = false ∧
    acceptedCount (fuzz R cfg input).events = 0 := by
  have hw : byteWidth (2 ^ 35 - 31) + byteWidth R.scenarios.length + 16 ≤
      input.length := hlen
  simp only [fuzz]
  split
  · rename_i h16
    exfalso
    simp only [FuzzedDataProvider.remainingBytes] at h16
    omega
  · split
    · rename_i e hp
      exact absurd hp (pickValue_ne_error _ hsc e)
    · rename_i scen d2 hp
      have hr2 := consumeIntegralInRange_snd (FuzzedDataProvider.mk input) 1
        (2 ^ 35 - 31) (by decide)
      have hb := pickValue_bytes hp
      rw [show rnd (FuzzedDataProvider.mk input) 1 (2 ^ 35 - 31) =
        consumeIntegralInRange (FuzzedDataProvider.mk input) 1 (2 ^ 35 - 31)
        from rfl, hr2] at hb
      have hrem : ¬ d2.remainingBytes < 16 := by
        simp only [FuzzedDataProvider.remainingBytes, hb, List.length_drop]
        have hW : byteWidth ((((2 : Int) ^ 35 - 31) - 1).toNat + 1) =
            byteWidth (2 ^ 35 - 31) := by decide
        omega
      rw [show cfg.MAX_STEPS + 2 = (cfg.MAX_STEPS + 1) + 1 from rfl]
      cases hra : resolveActive R (R.setup (rnd ⟨input⟩ 1 (2 ^ 35 - 31)).1 scen) d2
          ([Event.seed (rnd ⟨input⟩ 1 (2 ^ 35 - 31)).1] ++ [Event.scenario scen]) with
      | error e =>
        exact absurd hra (resolveActive_ne_error hroles _ _ _ e)
      | ok trip =>
        obtain ⟨active, da, tra⟩ := trip
        have hstep : fuzzStep R cfg ⟨(rnd ⟨input⟩ 1 (2 ^ 35 - 31)).1, scen⟩ 0
            (R.setup (rnd ⟨input⟩ 1 (2 ^ 35 - 31)).1 scen) d2
            ([Event.seed (rnd ⟨input⟩ 1 (2 ^ 35 - 31)).1] ++ [Event.scenario scen]) =
            .halt ⟨.gameOver (R.setup (rnd ⟨input⟩ 1 (2 ^ 35 - 31)).1 scen), tra⟩ := by
          simp only [fuzzStep, hra]
          rw [if_neg hrem, if_neg (Nat.not_lt_zero cfg.MAX_STEPS),
            if_pos (hsetup _ _)]
        simp only [fuzzLoop_succ, hstep]
        refine ⟨⟨_, rfl⟩, rfl, ?_⟩
        rw [(resolveActive_ok_facts hra).1]
        rfl

theorem claim_C9_witness :
    (∀ seed scen, (goEngine.setup seed scen).state = "game_over") ∧
    byteWidth (2 ^ 35 - 31) + byteWidth goEngine.scenarios.length + 16 ≤
      (List.replicate 21 0).length ∧
    (∃ fs, (fuzz goEngine cfgI (List.replicate 21 0)).outcome = .gameOver fs) ∧
    artifactWritten (fuzz goEngine cfgI (List.replicate 21 0)).outcome = false ∧
    acceptedCount (fuzz goEngine cfgI (List.replicate 21 0)).events = 0 := by
  have h := claim_C9 goEngine cfgI (List.replicate 21 0) (fun _ _ => rfl)
    (by decide) (by decide) (by decide)
  exact ⟨fun _ _ => rfl, by decide, h.1, h.2.1, h.2.2⟩

/-- C10: whenever the engine declares a resign operation, resign
suppression is off, and every view exposes an actions field, the injected
`_resign` entry (descriptor `1`) survives the disabled-action filter: every
successful normalization yields a set containing `_resign` (hence
nonempty), and the post-normalization empty-set NoActionsAvailable branch
("No more actions to take (besides undo)") is unreachable. -/
theorem claim_C10 (R : Rules) (cfg : Config) (input : List Nat)
    (hres : R.resign.isSome) (hnr : cfg.NO_RESIGN = false)
    (hview : ∀ s rl, ((R.view s rl).actions).isSome) :
    (∀ acts0 res, normalizeActions R cfg acts0 = .ok res →
      ("_resign", JSVal.prim (.num 1)) ∈ res ∧ res ≠ []) ∧
    ∀ dp, (fuzz R cfg input).outcome ≠
      .noActions dp "No more actions to take (besides undo)" := by
  constructor
  · intro acts0 res hok
    have hm := normalizeActions_resign_mem hres hnr hok
    exact ⟨hm, fun hx => by rw [hx] at hm; cases hm⟩
  · exact fun dp => fuzz_resign R cfg input hres hnr dp

theorem claim_C10_witness :
    resignEngine.resign.isSome = true ∧ cfgI.NO_RESIGN = false ∧
    ("_resign", JSVal.prim (.num 1)) ∈ [("_resign", JSVal.prim (.num 1))] :=
  ⟨rfl, rfl, ((claim_C10 resignEngine cfgI bufW rfl rfl (fun _ _ => rfl)).1 []
    [("_resign", JSVal.prim (.num 1))] (by decide)).1⟩

end RTT
